import Mathlib

/-!
Verification development for the cspir loop-vectorization analyzer and
SPIR-V kernel generator (src/src/parser.cpp, src/src/spirv_generator.cpp).

The first part is a shallow embedding of the clang AST fragment the
analyzers inspect, together with the analyzers themselves
(`LoopAnalyzer::analyzeWithOptimizer` and its helper visitors).
The second part embeds the instruction-level kernels emitted by
`SPIRVGenerator::generateVectorizedLoop` and
`SPIRVGenerator::generateReductionKernel`.
-/

namespace Cspir

/-! ## AST model

Mirrors the clang expression nodes the analyzers pattern-match on:
integer/floating literals, declaration references, array subscripts,
binary operators, parentheses and implicit casts. -/

/-- Clang `QualType`, restricted to the shapes the analyzers query
(`isFloatingType`, `isIntegerType`, `isPointerType`, equality). -/
inductive QualType where
  | intT | uintT | longT | boolT | floatT | doubleT | voidT
  | ptrT (elem : QualType)
  deriving DecidableEq, Repr

def QualType.isFloatingType : QualType → Bool
  | .floatT | .doubleT => true
  | _ => false

def QualType.isIntegerType : QualType → Bool
  | .intT | .uintT | .longT | .boolT => true
  | _ => false

def QualType.isPointerType : QualType → Bool
  | .ptrT _ => true
  | _ => false

/-- A `clang::VarDecl` as seen by the analyzers: name, type and
`hasGlobalStorage()`. -/
structure VarDecl where
  name : String
  type : QualType
  hasGlobalStorage : Bool
  deriving DecidableEq, Repr

/-- Clang `BinaryOperator` opcodes used by the source. -/
inductive BinOpKind where
  | assign
  | add | sub | mul | div
  | addAssign | subAssign | mulAssign | divAssign
  | lt | gt | le | ge | eq | ne
  deriving DecidableEq, Repr

/-- `BinaryOperator::isMultiplicativeOp() || isAdditiveOp()`. -/
def BinOpKind.isMulOrAdd : BinOpKind → Bool
  | .add | .sub | .mul | .div => true
  | _ => false

/-- `BinaryOperator::isCompoundAssignmentOp()`. -/
def BinOpKind.isCompoundAssignmentOp : BinOpKind → Bool
  | .addAssign | .subAssign | .mulAssign | .divAssign => true
  | _ => false

/-- `BinaryOperator::isAssignmentOp()` (plain or compound). -/
def BinOpKind.isAssignmentOp : BinOpKind → Bool
  | .assign | .addAssign | .subAssign | .mulAssign | .divAssign => true
  | _ => false

/-- The opcodes `LoopAnalyzer::checkTypes` treats as computation
operators (`isComputationOp` in parser.cpp). -/
def BinOpKind.isComputationOp : BinOpKind → Bool
  | .mul | .div | .add | .sub
  | .addAssign | .subAssign | .mulAssign | .divAssign => true
  | _ => false

/-- Clang expression nodes.  `arraySub` records the element type
(`ArraySubscriptExpr::getType()`), `binOp` the operator result type.
`floatLit` carries the literal's value as an abstract identifier (the
analyzers only copy it around, never compute with it). -/
inductive Expr where
  | intLit (v : Nat) (ty : QualType)
  | floatLit (v : Int) (ty : QualType)
  | declRef (vd : VarDecl)
  | arraySub (base idx : Expr) (ty : QualType)
  | binOp (op : BinOpKind) (l r : Expr) (ty : QualType)
  | parenE (e : Expr)
  | implicitCast (e : Expr) (ty : QualType)
  deriving DecidableEq, Repr

/-- `Expr::getType()`. -/
def Expr.getType : Expr → QualType
  | .intLit _ ty => ty
  | .floatLit _ ty => ty
  | .declRef vd => vd.type
  | .arraySub _ _ ty => ty
  | .binOp _ _ _ ty => ty
  | .parenE e => e.getType
  | .implicitCast _ ty => ty

/-- `Expr::IgnoreParenImpCasts()`. -/
def Expr.ignoreParenImpCasts : Expr → Expr
  | .parenE e => e.ignoreParenImpCasts
  | .implicitCast e _ => e.ignoreParenImpCasts
  | e => e

/-- Preorder node list of one expression tree: the order in which
`clang::RecursiveASTVisitor` fires its `Visit*` callbacks (a node is
visited before its children, left child before right). -/
def Expr.preorder : Expr → List Expr
  | e@(.arraySub b i _) => e :: (b.preorder ++ i.preorder)
  | e@(.binOp _ l r _) => e :: (l.preorder ++ r.preorder)
  | e@(.parenE x) => e :: x.preorder
  | e@(.implicitCast x _) => e :: x.preorder
  | e => [e]

/-- A loop body: the compound statement's expression statements.  All
the analyzers traverse only expression nodes, so the body is modelled
as the list of its top-level expressions. -/
abbrev Body := List Expr

/-- All expression nodes a `RecursiveASTVisitor` visits when traversing
the body, in visitation order. -/
def visitedExprs (body : Body) : List Expr :=
  body.flatMap Expr.preorder

/-- `clang::ForStmt`, restricted to what `analyzeWithOptimizer` reads:
the condition expression and the body. -/
structure ForStmt where
  cond : Expr
  body : Body
  deriving DecidableEq, Repr

/-! ## VectorizationInfo (types.h) -/

structure VectorizationInfo where
  IsVectorizable : Bool
  Reasons : List String
  RecommendedWidth : Nat
  IsReduction : Bool
  IsSimplePattern : Bool
  HasConstantTripCount : Bool
  TripCount : Nat
  deriving DecidableEq, Repr

/-! ## Dependency detection

`DependencyChecker` in `LoopAnalyzer::analyzeWithOptimizer`
(parser.cpp): an array subscript whose index, after
`IgnoreParenImpCasts`, is a `BO_Sub` whose right operand (again after
`IgnoreParenImpCasts`) is the integer literal 1. -/

def isDepIndex (idx : Expr) : Bool :=
  match idx.ignoreParenImpCasts with
  | .binOp .sub _ r _ =>
      match r.ignoreParenImpCasts with
      | .intLit 1 _ => true
      | _ => false
  | _ => false

/-- Does this visited node trip `DependencyChecker::VisitArraySubscriptExpr`? -/
def isDepASE (e : Expr) : Bool :=
  match e with
  | .arraySub _ idx _ => isDepIndex idx
  | _ => false

def depReasonMsg : String := "Loop-carried dependency detected: array[i-1] access pattern"

def depStep (st : Bool × List String) (e : Expr) : Bool × List String :=
  if isDepASE e then (true, st.2 ++ [depReasonMsg]) else st

/-- The `HasDependencies` flag computed by `DependencyChecker`. -/
def bodyHasDependencies (body : Body) : Bool :=
  ((visitedExprs body).foldl depStep (false, [])).1

/-- The reasons `DependencyChecker` pushes (one per matching subscript). -/
def dependencyReasons (body : Body) : List String :=
  ((visitedExprs body).foldl depStep (false, [])).2

/-! ## Trip-count analysis

Inline in `analyzeWithOptimizer`: the condition must be a
`BinaryOperator` whose right-hand side is (directly, without
`IgnoreParenImpCasts`) an `IntegerLiteral`. -/

/-- Returns `(HasConstantTripCount, TripCount, reasons pushed)`. -/
def analyzeTripCount (cond : Expr) : Bool × Nat × List String :=
  match cond with
  | .binOp _ _ (.intLit v _) _ =>
      (true, v, ["Loop trip count: " ++ toString v])
  | _ => (false, 0, [])

/-! ## Simple-pattern detection

`LoopAnalyzer::isSimpleVectorizablePattern` (parser.cpp): a stateful
`PatternMatcher` visitor; the final result is
`IsSimplePattern && !HasDependency`. -/

/-- `PatternMatcher::isSimpleOperation`: multiplicative/additive
operator whose left operand (modulo paren/casts) is an array subscript
and whose right operand is a floating or integer literal. -/
def isSimpleOperation (op : BinOpKind) (l r : Expr) : Bool :=
  op.isMulOrAdd &&
  (match l.ignoreParenImpCasts with
   | .arraySub _ _ _ => true
   | _ => false) &&
  (match r.ignoreParenImpCasts with
   | .floatLit _ _ => true
   | .intLit _ _ => true
   | _ => false)

/-- One `PatternMatcher` visitor step; the state is
`(IsSimplePattern, HasDependency)`. -/
def patternStep (st : Bool × Bool) (e : Expr) : Bool × Bool :=
  match e with
  | .arraySub _ idx _ => if isDepIndex idx then (st.1, true) else st
  | .binOp .assign l r _ =>
      match l.ignoreParenImpCasts, r.ignoreParenImpCasts with
      | .arraySub _ _ _, .binOp op l' r' _ =>
          if isSimpleOperation op l' r' && !st.2 then (true, st.2) else st
      | _, _ => st
  | _ => st

def isSimpleVectorizablePattern (body : Body) : Bool :=
  let st := (visitedExprs body).foldl patternStep (false, false)
  st.1 && !st.2

/-! ## Type-uniformity check

`LoopAnalyzer::checkTypes` (parser.cpp): a `TypeChecker` visitor whose
`VisitExpr` runs on every expression node.  `ComputationTypes` and
`IndexTypes` are `llvm::SmallSet`s, modelled as duplicate-free lists;
after every visit the size of `ComputationTypes` is checked and, when
it exceeds 1, `HasMixedTypes` is set and the mixed-types reason is
pushed (again). -/

def mixedTypesMsg : String := "Mixed computation types detected in loop"

def insertType (ts : List QualType) (t : QualType) : List QualType :=
  if ts.contains t then ts else ts ++ [t]

structure TCState where
  hasMixedTypes : Bool
  compTypes : List QualType
  idxTypes : List QualType
  reasons : List String
  deriving DecidableEq, Repr

def TCState.init : TCState := ⟨false, [], [], []⟩

/-- The type-collection part of `TypeChecker::VisitExpr`: record the
element type of an array subscript (and its index type), or the result
type of a computation operator unless it is a known index type. -/
def typeObserve (st : TCState) (e : Expr) : TCState :=
  match e with
  | .arraySub _ idx ty =>
      let st :=
        if ty.isFloatingType || ty.isIntegerType then
          { st with compTypes := insertType st.compTypes ty }
        else st
      { st with idxTypes := insertType st.idxTypes idx.getType }
  | .binOp op _ _ ty =>
      if op.isComputationOp then
        if ty.isFloatingType || ty.isIntegerType then
          if st.idxTypes.contains ty then st
          else { st with compTypes := insertType st.compTypes ty }
        else st
      else st
  | _ => st

/-- `TypeChecker::VisitExpr`: observe the node's types, then check the
set size and (re-)push the mixed-types reason whenever it exceeds 1. -/
def typeStep (st : TCState) (e : Expr) : TCState :=
  if (typeObserve st e).compTypes.length > 1 then
    { hasMixedTypes := true
      compTypes := (typeObserve st e).compTypes
      idxTypes := (typeObserve st e).idxTypes
      reasons := (typeObserve st e).reasons ++ [mixedTypesMsg] }
  else typeObserve st e

def runTypeChecker (body : Body) : TCState :=
  (visitedExprs body).foldl typeStep TCState.init

/-- `LoopAnalyzer::checkTypes` returns `!Checker.HasMixedTypes`. -/
def checkTypesResult (body : Body) : Bool :=
  !(runTypeChecker body).hasMixedTypes

def typeReasons (body : Body) : List String :=
  (runTypeChecker body).reasons

/-! ## Reduction detection

`LoopAnalyzer::isReductionLoop` (parser.cpp): a compound assignment
whose left-hand side (modulo paren/casts) is a `DeclRefExpr`. -/

structure RedState where
  isReduction : Bool
  reductionVar : String
  reasons : List String
  deriving DecidableEq, Repr

def redStep (st : RedState) (e : Expr) : RedState :=
  match e with
  | .binOp op l _ _ =>
      if op.isCompoundAssignmentOp then
        match l.ignoreParenImpCasts with
        | .declRef vd =>
            { isReduction := true, reductionVar := vd.name,
              reasons := st.reasons ++
                ["Reduction operation detected on variable: " ++ vd.name] }
        | _ => st
      else st
  | _ => st

def runReductionChecker (body : Body) : RedState :=
  (visitedExprs body).foldl redStep ⟨false, "", []⟩

/-! ## The decision engine

`LoopAnalyzer::analyzeWithOptimizer` (parser.cpp).  The C++ code
threads a single `Info.Reasons` vector by reference through the
checkers; each checker only appends, which is rendered here as list
concatenation of the per-stage reason lists.  `checkTypes` is invoked
as the third operand of a short-circuiting `&&`, so its reasons appear
only when the first two conjuncts hold. -/

def analyzeWithOptimizer (fs : ForStmt) : VectorizationInfo :=
  let hasDeps := bodyHasDependencies fs.body
  let depRs := dependencyReasons fs.body
  let tripRes := analyzeTripCount fs.cond
  let hasTrip := tripRes.1
  let tripCount := tripRes.2.1
  let tripRs := tripRes.2.2
  let isSimple := isSimpleVectorizablePattern fs.body
  let patRs := if isSimple then ["Simple vectorizable pattern detected"] else []
  let red := runReductionChecker fs.body
  let isRed := red.isReduction
  let reachedTypeCheck := (hasTrip || isRed || isSimple) && (!hasDeps || isRed)
  let isVec := reachedTypeCheck && checkTypesResult fs.body
  let typeRs := if reachedTypeCheck then typeReasons fs.body else []
  let width :=
    if isVec then
      if isRed then 4
      else if hasTrip && decide (tripCount ≥ 8) then 8
      else 4
    else 0
  let finalRs :=
    if !isVec && hasDeps then ["Loop cannot be vectorized due to dependencies"]
    else []
  { IsVectorizable := isVec
    Reasons := depRs ++ tripRs ++ patRs ++ red.reasons ++ typeRs ++ finalRs
    RecommendedWidth := width
    IsReduction := isRed
    IsSimplePattern := isSimple
    HasConstantTripCount := hasTrip
    TripCount := tripCount }

/-! ## Kernel argument collection

`ArgumentCollector` in `SPIRVGenerator::generateKernel`
(spirv_generator.cpp): every `DeclRefExpr` in the loop body whose
declaration has global storage or pointer type contributes its name to
`KInfo.Arguments` (an unconditional `push_back`). -/

def argQualifies (vd : VarDecl) : Bool :=
  vd.hasGlobalStorage || vd.type.isPointerType

def argStep (acc : List String) (e : Expr) : List String :=
  match e with
  | .declRef vd => if argQualifies vd then acc ++ [vd.name] else acc
  | _ => acc

def collectKernelArgs (body : Body) : List String :=
  (visitedExprs body).foldl argStep []

/-! ## Kernel IR

A shallow embedding of the LLVM IR the generator emits: named basic
blocks holding instruction lists and a terminator.  Register names
mirror the value names used in spirv_generator.cpp; the `add`/`icmp`
pair feeding each conditional branch is folded into the branch
condition shape. -/

/-- An LLVM value operand: a kernel argument (by position), the result
of one of the OpenCL id intrinsics, a named instruction result, or an
integer constant. -/
inductive Val where
  | arg (i : Nat)
  | reg (name : String)
  | cInt (n : Nat)
  deriving DecidableEq, Repr

inductive AtomicOrdering where
  | monotonic | seqCst
  deriving DecidableEq, Repr

inductive ArithOp where
  | fadd | fmul | fsub | fdiv
  deriving DecidableEq, Repr

/-- Branch conditions.  `ultAddK b k n` is
`icmp ult (add b (cInt k)) n` (unsigned); `eqZero v` is
`icmp eq v 0`. -/
inductive Cond where
  | ultAddK (base : Val) (k : Nat) (bound : Val)
  | eqZero (v : Val)
  deriving DecidableEq, Repr

/-- Block labels.  The source uses strings: "entry", "vector",
"scalar", "exit", "reduce_entry", "reduce_<step>", "continue_<step>",
"atomic"; the labels are kept structured here. -/
inductive BlockName where
  | entry | vector | scalar | exit
  | reduceEntry | reduce (step : Nat) | cont (step : Nat)
  | atomic
  deriving DecidableEq, Repr

inductive Terminator where
  | condBr (c : Cond) (t f : BlockName)
  | br (t : BlockName)
  | retVoid
  deriving DecidableEq, Repr

/-- Branch targets of a terminator. -/
def Terminator.targets : Terminator → List BlockName
  | .condBr _ t f => [t, f]
  | .br t => [t]
  | .retVoid => []

inductive Instr where
  | callGlobalId (dst : String)
  | callLocalId (dst : String)
  | callLocalSize (dst : String)
  | allocaLocal (dst : String) (size : Nat)
  | gep (dst : String) (base : Val) (idx : Val)
  | loadVector (dst : String) (ptr : Val) (width : Nat)
  | loadFloat (dst : String) (ptr : Val)
  | storeVector (val : Val) (ptr : Val)
  | storeFloat (val : Val) (ptr : Val)
  | extractElem (dst : String) (vec : Val) (idx : Nat)
  | iAdd (dst : String) (a b : Val)
  | fAdd (dst : String) (a b : Val)
  | arithConstVec (dst : String) (op : ArithOp) (a : Val) (c : Int) (width : Nat)
  | arithConstScalar (dst : String) (op : ArithOp) (a : Val) (c : Int)
  | barrier (fence : Nat)
  | atomicRMWFAdd (ptr : Val) (val : Val) (ordering : AtomicOrdering)
  deriving DecidableEq, Repr

/-- Vector-wide memory accesses. -/
def Instr.isVectorAccess : Instr → Bool
  | .loadVector _ _ _ => true
  | .storeVector _ _ => true
  | _ => false

/-- Single-element (scalar) memory accesses. -/
def Instr.isScalarAccess : Instr → Bool
  | .loadFloat _ _ => true
  | .storeFloat _ _ => true
  | _ => false

/-- Any memory access (loads, stores, atomics). -/
def Instr.isMemAccess : Instr → Bool
  | .loadVector _ _ _ => true
  | .storeVector _ _ => true
  | .loadFloat _ _ => true
  | .storeFloat _ _ => true
  | .atomicRMWFAdd _ _ _ => true
  | _ => false

def Instr.isAtomic : Instr → Bool
  | .atomicRMWFAdd _ _ _ => true
  | _ => false

structure BasicBlock where
  name : BlockName
  instrs : List Instr
  term : Terminator
  deriving DecidableEq, Repr

/-- `CLK_LOCAL_MEM_FENCE` (types.h). -/
def CLK_LOCAL_MEM_FENCE : Nat := 1

/-- `KInfo.VectorWidth - 1` as the C++ 32-bit unsigned `APInt(32, w-1)`
computes it (wrapping at 0). -/
def subOneU32 (w : Nat) : Nat := (w + (2 ^ 32 - 1)) % 2 ^ 32

/-! ## Operation analysis for the elementwise kernel

`OperationAnalyzer` in `SPIRVGenerator::generateVectorizedLoop`
(spirv_generator.cpp): on every assignment whose right-hand side is a
binary operator, the opcode selects `Operation`, and `HasOperation`
becomes true only if that operator's right operand (modulo
paren/casts) is a `FloatingLiteral`. -/

inductive OpKind where
  | none | add | mul | sub | div
  deriving DecidableEq, Repr

structure OpState where
  operation : OpKind
  constant : Int
  hasOperation : Bool
  deriving DecidableEq, Repr

def opStep (st : OpState) (e : Expr) : OpState :=
  match e with
  | .binOp op _ r _ =>
      if op.isAssignmentOp then
        match r.ignoreParenImpCasts with
        | .binOp op' _ r' _ =>
            let st :=
              match op' with
              | .add => { st with operation := .add }
              | .mul => { st with operation := .mul }
              | .sub => { st with operation := .sub }
              | .div => { st with operation := .div }
              | _ => st
            match r'.ignoreParenImpCasts with
            | .floatLit v _ => { st with constant := v, hasOperation := true }
            | _ => st
        | _ => st
      else st
  | _ => st

def analyzeOperation (body : Body) : OpState :=
  (visitedExprs body).foldl opStep ⟨.none, 0, false⟩

/-- The arithmetic instruction the generator emits for the analyzed
operation: nothing unless `HasOperation`, and nothing in the `None`
default case of the switch. -/
def emittedOp (st : OpState) : Option (ArithOp × Int) :=
  if st.hasOperation then
    match st.operation with
    | .add => some (.fadd, st.constant)
    | .mul => some (.fmul, st.constant)
    | .sub => some (.fsub, st.constant)
    | .div => some (.fdiv, st.constant)
    | .none => none
  else none

/-! ## Elementwise vectorized kernel

`SPIRVGenerator::generateVectorizedLoop` (spirv_generator.cpp).
Arguments: one float pointer per collected argument followed by an
`i32` size; the body addresses `arg 0` (input), `arg 1` (output) and
`arg 2` (the size bound `N`). -/

def vectorBlockInstrs (width : Nat) (op : Option (ArithOp × Int)) : List Instr :=
  [.gep "vec_load_ptr" (.arg 0) (.reg "global_id"),
   .loadVector "vec" (.reg "vec_load_ptr") width] ++
  (match op with
   | some (o, c) => [.arithConstVec "vec_result" o (.reg "vec") c width]
   | none => []) ++
  [.gep "vec_store_ptr" (.arg 1) (.reg "global_id"),
   .storeVector (match op with
                 | some _ => .reg "vec_result"
                 | none => .reg "vec") (.reg "vec_store_ptr")]

def scalarBlockInstrs (op : Option (ArithOp × Int)) : List Instr :=
  [.gep "scalar_load_ptr" (.arg 0) (.reg "global_id"),
   .loadFloat "scalar_val" (.reg "scalar_load_ptr")] ++
  (match op with
   | some (o, c) => [.arithConstScalar "scalar_result" o (.reg "scalar_val") c]
   | none => []) ++
  [.gep "scalar_store_ptr" (.arg 1) (.reg "global_id"),
   .storeFloat (match op with
                | some _ => .reg "scalar_result"
                | none => .reg "scalar_val") (.reg "scalar_store_ptr")]

def generateVectorizedLoop (width : Nat) (st : OpState) : List BasicBlock :=
  [{ name := .entry
     instrs := [.callGlobalId "global_id"]
     term := .condBr (.ultAddK (.reg "global_id") (subOneU32 width) (.arg 2))
               .vector .scalar },
   { name := .vector
     instrs := vectorBlockInstrs width (emittedOp st)
     term := .br .exit },
   { name := .scalar
     instrs := scalarBlockInstrs (emittedOp st)
     term := .br .exit },
   { name := .exit, instrs := [], term := .retVoid }]

/-! ## Reduction kernel

`SPIRVGenerator::generateReductionKernel`, `improveReductionKernel`
and `createWorkGroupReduction` (spirv_generator.cpp).  The work-group
tree runs over step sizes `1, 2, 4, … < PreferredWorkGroupSize`; each
round's comparison and conditional branch are emitted into the
previous round's continue block (or `reduce_entry` for the first
round), and once the loop ends the leader check is emitted there
instead. -/

/-- The step sizes of the `for (StepSize = 1; StepSize < wg; StepSize *= 2)`
loop, generalized over the starting step. -/
def stepsFrom (step wg : Nat) : List Nat :=
  if h : 0 < step ∧ step < wg then
    step :: stepsFrom (2 * step) wg
  else []
  termination_by wg - step
  decreasing_by omega

def roundSteps (wg : Nat) : List Nat := stepsFrom 1 wg

/-- The terminator emitted into the block that is current when the
loop head for step `s` runs: the round branch while `s < wg`, the
leader check once the loop is done. -/
def roundTerm (s wg : Nat) : Terminator :=
  if s < wg then
    .condBr (.ultAddK (.reg "local_id") s (.reg "wg_size")) (.reduce s) (.cont s)
  else
    .condBr (.eqZero (.reg "local_id")) .atomic .exit

/-- Body of one `reduce_<s>` block: GEP to the lane's slot, the
`local_id + step` add and the GEP it indexes, two loads, the add, the
store back to the lane's own slot. -/
def reduceBlockInstrs (s : Nat) : List Instr :=
  [.gep ("ptr1_" ++ toString s) (.reg "local_mem") (.reg "local_id"),
   .iAdd ("idx2_" ++ toString s) (.reg "local_id") (.cInt s),
   .gep ("ptr2_" ++ toString s) (.reg "local_mem") (.reg ("idx2_" ++ toString s)),
   .loadFloat ("val1_" ++ toString s) (.reg ("ptr1_" ++ toString s)),
   .loadFloat ("val2_" ++ toString s) (.reg ("ptr2_" ++ toString s)),
   .fAdd ("sum_" ++ toString s) (.reg ("val1_" ++ toString s)) (.reg ("val2_" ++ toString s)),
   .storeFloat (.reg ("sum_" ++ toString s)) (.reg ("ptr1_" ++ toString s))]

def reduceBlock (s : Nat) : BasicBlock :=
  { name := .reduce s, instrs := reduceBlockInstrs s, term := .br (.cont s) }

/-- A `continue_<s>` block: exactly the barrier; its terminator is the
next round's branch (or the leader check after the last round). -/
def contBlock (s wg : Nat) : BasicBlock :=
  { name := .cont s, instrs := [.barrier CLK_LOCAL_MEM_FENCE], term := roundTerm (2 * s) wg }

/-- The blocks `createWorkGroupReduction` creates, in creation order. -/
def reductionRounds (wg : Nat) : List BasicBlock :=
  (roundSteps wg).flatMap (fun s => [reduceBlock s, contBlock s wg])

/-- The in-register horizontal sum `performVectorReduction` emits:
extract lane 0, then extract-and-add each further lane. -/
def vectorReduceInstrs : Nat → List Instr
  | 0 => []
  | n + 1 =>
      vectorReduceInstrs n ++
      [.extractElem ("elem_" ++ toString (n + 1)) (.reg "vec") (n + 1),
       .fAdd ("sum_acc_" ++ toString (n + 1))
         (.reg (if n = 0 then "elem_0" else "sum_acc_" ++ toString n))
         (.reg ("elem_" ++ toString (n + 1)))]

/-- The value left in the accumulator after `performVectorReduction`
over `width` lanes. -/
def vectorReduceResult (width : Nat) : Val :=
  if width ≤ 1 then .reg "elem_0" else .reg ("sum_acc_" ++ toString (width - 1))

/-- The entry-block instructions of the reduction kernel
(`improveReductionKernel` before `createWorkGroupReduction`). -/
def reductionEntryInstrs (width wg : Nat) : List Instr :=
  [.callGlobalId "global_id",
   .allocaLocal "local_mem" wg,
   .callLocalId "local_id",
   .loadVector "vec" (.arg 0) width] ++
  (Instr.extractElem "elem_0" (.reg "vec") 0 :: vectorReduceInstrs (width - 1)) ++
  [.gep "local_ptr" (.reg "local_mem") (.reg "local_id"),
   .storeFloat (vectorReduceResult width) (.reg "local_ptr"),
   .barrier CLK_LOCAL_MEM_FENCE,
   .callLocalSize "wg_size"]

/-- The whole reduction kernel, blocks in creation order: entry,
reduce_entry, the interleaved reduce/continue rounds, the
leader-guarded atomic block, exit. -/
def generateReductionKernel (width wg : Nat) : List BasicBlock :=
  { name := .entry, instrs := reductionEntryInstrs width wg, term := .br .reduceEntry } ::
  { name := .reduceEntry, instrs := [], term := roundTerm 1 wg } ::
  reductionRounds wg ++
  [{ name := .atomic
     instrs := [.loadFloat "final_sum" (.reg "local_mem"),
                .atomicRMWFAdd (.arg 1) (.reg "final_sum") .seqCst]
     term := .br .exit },
   { name := .exit, instrs := [], term := .retVoid }]

/-- All atomic read-modify-write instructions of a kernel. -/
def atomicInstrs (K : List BasicBlock) : List Instr :=
  (K.flatMap BasicBlock.instrs).filter Instr.isAtomic

/-! ## Concrete loops used as test inputs -/

def arrVD : VarDecl := ⟨"arr", .ptrT .floatT, false⟩
def iarrVD : VarDecl := ⟨"iarr", .ptrT .intT, false⟩
def iVD : VarDecl := ⟨"i", .intT, false⟩
def nVD : VarDecl := ⟨"n", .intT, false⟩

/-- `for (i = 0; i < 128; i++) arr[i] = arr[i] + 1.0f;` (constant trip
count 128, simple pattern, no dependency). -/
def loopE : ForStmt :=
  { cond := .binOp .lt (.declRef iVD) (.intLit 128 .intT) .intT
    body := [.binOp .assign (.arraySub (.declRef arrVD) (.declRef iVD) .floatT)
               (.binOp .add (.arraySub (.declRef arrVD) (.declRef iVD) .floatT)
                  (.floatLit 1 .floatT) .floatT) .floatT] }

/-- `for (i = 0; i < n; i++) arr[0] = 1.0f;` — the condition's
right-hand side is a variable, its left-hand side a bare reference to
the loop control variable `i`, which the body never uses. -/
def cex5 : ForStmt :=
  { cond := .binOp .lt (.declRef iVD) (.declRef nVD) .intT
    body := [.binOp .assign (.arraySub (.declRef arrVD) (.intLit 0 .intT) .floatT)
               (.floatLit 1 .floatT) .floatT] }

/-- `for (i = 0; i < 10; i++) arr[i] = (float) iarr[i];` — float
element writes fed from int element reads: mixed computation types,
with a constant trip count so the type check is reached. -/
def cex6 : ForStmt :=
  { cond := .binOp .lt (.declRef iVD) (.intLit 10 .intT) .intT
    body := [.binOp .assign (.arraySub (.declRef arrVD) (.declRef iVD) .floatT)
               (.implicitCast (.arraySub (.declRef iarrVD) (.declRef iVD) .intT) .floatT)
               .floatT] }

/-- `for (i = 1; i < 10; i++) arr[i] = arr[i-1] + 1.0f;` — both a
loop-carried dependency and a constant trip count. -/
def cex7 : ForStmt :=
  { cond := .binOp .lt (.declRef iVD) (.intLit 10 .intT) .intT
    body := [.binOp .assign (.arraySub (.declRef arrVD) (.declRef iVD) .floatT)
               (.binOp .add
                  (.arraySub (.declRef arrVD)
                     (.binOp .sub (.declRef iVD) (.intLit 1 .intT) .intT) .floatT)
                  (.floatLit 1 .floatT) .floatT) .floatT] }

/-- Body of `arr[i] = arr[i] * 2.0f;` — the pointer `arr` is
referenced twice. -/
def cex8body : Body :=
  [.binOp .assign (.arraySub (.declRef arrVD) (.declRef iVD) .floatT)
     (.binOp .mul (.arraySub (.declRef arrVD) (.declRef iVD) .floatT)
        (.floatLit 2 .floatT) .floatT) .floatT]

/-- A loop whose condition is not even a binary operator and whose body
is empty: nothing is vectorizable about it. -/
def loop9 : ForStmt := { cond := .declRef nVD, body := [] }

/-- Body of `arr[i] = arr[i] * 2;` — the literal constant is an
integer literal (implicitly converted to float), not a floating
literal. -/
def cex10body : Body :=
  [.binOp .assign (.arraySub (.declRef arrVD) (.declRef iVD) .floatT)
     (.binOp .mul (.arraySub (.declRef arrVD) (.declRef iVD) .floatT)
        (.implicitCast (.intLit 2 .intT) .floatT) .floatT) .floatT]

/-! ## Analyzer lemmas -/

theorem foldl_depStep_fst (l : List Expr) (b : Bool) (rs : List String) :
    (l.foldl depStep (b, rs)).1 = (b || l.any isDepASE) := by
  induction l generalizing b rs with
  | nil => simp
  | cons e t ih =>
      by_cases h : isDepASE e <;>
        simp [List.foldl_cons, depStep, h, ih]

/-- The width field as the source computes it: assigned only on the
vectorizable path, otherwise left at its initializer 0. -/
theorem analyzeWithOptimizer_width (fs : ForStmt) :
    (analyzeWithOptimizer fs).RecommendedWidth =
      (if (analyzeWithOptimizer fs).IsVectorizable then
        (if (analyzeWithOptimizer fs).IsReduction then 4
         else if (analyzeWithOptimizer fs).HasConstantTripCount &&
                  decide ((analyzeWithOptimizer fs).TripCount ≥ 8) then 8
         else 4)
       else 0) := rfl

/-- `analyzeTripCount` succeeds exactly on a binary-operator condition
whose right operand is literally an integer literal. -/
def condRHSIsIntLiteral : Expr → Bool
  | .binOp _ _ (.intLit _ _) _ => true
  | _ => false

def condRHSLiteralValue : Expr → Nat
  | .binOp _ _ (.intLit v _) _ => v
  | _ => 0

theorem analyzeTripCount_spec (c : Expr) :
    (analyzeTripCount c).1 = condRHSIsIntLiteral c ∧
    (analyzeTripCount c).2.1 = condRHSLiteralValue c := by
  cases c with
  | binOp op l r ty => cases r <;> exact ⟨rfl, rfl⟩
  | _ => exact ⟨rfl, rfl⟩

/-- Which visited nodes make `OperationAnalyzer` set `HasOperation`:
an assignment whose right-hand side is a binary operator whose right
operand (modulo parens/implicit casts) is a floating literal. -/
def floatOpAssign (e : Expr) : Bool :=
  match e with
  | .binOp op _ r _ =>
      op.isAssignmentOp &&
      (match r.ignoreParenImpCasts with
       | .binOp _ _ r' _ =>
           (match r'.ignoreParenImpCasts with
            | .floatLit _ _ => true
            | _ => false)
       | _ => false)
  | _ => false

theorem opStep_hasOperation (st : OpState) (e : Expr) :
    (opStep st e).hasOperation = (st.hasOperation || floatOpAssign e) := by
  cases e
  case binOp op l r ty =>
    by_cases h : op.isAssignmentOp = true
    · simp only [opStep, floatOpAssign, h, if_true, Bool.true_and]
      cases hr : r.ignoreParenImpCasts <;>
        try (simp; done)
      rename_i op' l' r' ty'
      cases hr' : r'.ignoreParenImpCasts <;> cases op' <;> simp [hr']
    · simp [opStep, floatOpAssign, h]
  all_goals simp [opStep, floatOpAssign]

theorem foldl_opStep (l : List Expr) (st : OpState) :
    (l.foldl opStep st).hasOperation = (st.hasOperation || l.any floatOpAssign) := by
  induction l generalizing st with
  | nil => simp
  | cons e t ih =>
      rw [List.foldl_cons, ih, opStep_hasOperation]
      simp [Bool.or_assoc]

/-- Which visited nodes contribute a kernel argument. -/
def argName : Expr → Option String
  | .declRef vd => if argQualifies vd then some vd.name else none
  | _ => none

theorem foldl_argStep (l : List Expr) (acc : List String) :
    l.foldl argStep acc = acc ++ l.filterMap argName := by
  induction l generalizing acc with
  | nil => simp
  | cons e t ih =>
      cases e
      case declRef vd =>
        by_cases h : argQualifies vd <;>
          simp [List.foldl_cons, argStep, argName, h, ih]
      all_goals simp [List.foldl_cons, argStep, argName, ih]

/-! ## Claims about the decision engine -/

/-- Claim C1: the vectorization verdict is exactly
`(hasConstantTripCount ∨ isReduction ∨ simplePattern) ∧
 (¬hasDependencies ∨ isReduction) ∧ typeUniformity`, where
`hasDependencies` holds exactly when some array subscript's index has
the `expr - 1` shape; in particular a reduction overrides a detected
dependency. -/
theorem c1_vectorization_decision_formula (fs : ForStmt) :
    (analyzeWithOptimizer fs).IsVectorizable =
      (((analyzeWithOptimizer fs).HasConstantTripCount ||
          (analyzeWithOptimizer fs).IsReduction ||
          (analyzeWithOptimizer fs).IsSimplePattern) &&
        (!bodyHasDependencies fs.body || (analyzeWithOptimizer fs).IsReduction) &&
        checkTypesResult fs.body) ∧
    bodyHasDependencies fs.body = (visitedExprs fs.body).any isDepASE := by
  refine ⟨rfl, ?_⟩
  unfold bodyHasDependencies
  rw [foldl_depStep_fst]
  simp

/-- Claim C2: when the verdict is vectorizable, the width is 4 for
reductions, else 8 when the trip count is constant and at least 8,
else 4; hence the width is always 4 or 8 on vectorizable loops. -/
theorem c2_width_selection (fs : ForStmt)
    (h : (analyzeWithOptimizer fs).IsVectorizable = true) :
    (analyzeWithOptimizer fs).RecommendedWidth =
      (if (analyzeWithOptimizer fs).IsReduction then 4
       else if (analyzeWithOptimizer fs).HasConstantTripCount &&
                decide ((analyzeWithOptimizer fs).TripCount ≥ 8) then 8
       else 4) ∧
    ((analyzeWithOptimizer fs).RecommendedWidth = 4 ∨
     (analyzeWithOptimizer fs).RecommendedWidth = 8) := by
  rw [analyzeWithOptimizer_width, h]
  refine ⟨by simp, ?_⟩
  by_cases hr : (analyzeWithOptimizer fs).IsReduction = true
  · simp [hr]
  · by_cases ht : ((analyzeWithOptimizer fs).HasConstantTripCount &&
        decide ((analyzeWithOptimizer fs).TripCount ≥ 8)) = true
    · simp [hr, ht]
    · simp [hr, ht]

theorem c2_width_selection_witness :
    (analyzeWithOptimizer loopE).IsVectorizable = true ∧
    ((analyzeWithOptimizer loopE).RecommendedWidth = 4 ∨
     (analyzeWithOptimizer loopE).RecommendedWidth = 8) :=
  ⟨by decide, (c2_width_selection loopE (by decide)).2⟩

/-- Claim C5 (counterexample): on a loop whose condition compares the
bare loop-control variable against a non-literal bound, the analyzer
reports `HasConstantTripCount = false` and appends no reason at all —
there is no "predictable access pattern" fallback in the code. -/
theorem c5_no_predictable_fallback_cex :
    (analyzeWithOptimizer cex5).HasConstantTripCount = false ∧
    (analyzeWithOptimizer cex5).Reasons = [] := by
  constructor <;> rfl

/-- Claim C5 (amended): `hasConstantTripCount` is true exactly when
the condition is a binary operator whose right-hand operand is an
integer literal, and `tripCount` is that literal's value (0
otherwise); every other condition shape — including a bare
variable-reference left-hand side — yields false, with no fallback. -/
theorem c5_trip_count_amended (fs : ForStmt) :
    (analyzeWithOptimizer fs).HasConstantTripCount = condRHSIsIntLiteral fs.cond ∧
    (analyzeWithOptimizer fs).TripCount = condRHSLiteralValue fs.cond :=
  ⟨(analyzeTripCount_spec fs.cond).1, (analyzeTripCount_spec fs.cond).2⟩

/-- Claim C7 (counterexample): on a loop with both a dependency and a
constant trip count, the dependency reason precedes the trip-count
reason — the claimed order (trip count first, dependency third) does
not hold. -/
theorem c7_reason_order_cex :
    (analyzeWithOptimizer cex7).Reasons =
      [depReasonMsg, "Loop trip count: 10",
       "Loop cannot be vectorized due to dependencies"] := by
  decide

/-- Claim C7 (amended): the reasons list is the concatenation, in
order, of the dependency findings, the trip-count finding, the
pattern finding, the reduction findings, the type findings (present
only when the short-circuited decision reaches the type check), and
the final decision reason. -/
theorem c7_reason_order_amended (fs : ForStmt) :
    (analyzeWithOptimizer fs).Reasons =
      dependencyReasons fs.body ++
      (analyzeTripCount fs.cond).2.2 ++
      (if isSimpleVectorizablePattern fs.body
        then ["Simple vectorizable pattern detected"] else []) ++
      (runReductionChecker fs.body).reasons ++
      (if ((analyzeTripCount fs.cond).1 ||
            (runReductionChecker fs.body).isReduction ||
            isSimpleVectorizablePattern fs.body) &&
          (!bodyHasDependencies fs.body ||
            (runReductionChecker fs.body).isReduction)
        then typeReasons fs.body else []) ++
      (if !(analyzeWithOptimizer fs).IsVectorizable && bodyHasDependencies fs.body
        then ["Loop cannot be vectorized due to dependencies"] else []) := rfl

/-- Claim C8 (counterexample): a body referencing the pointer `arr`
twice yields the argument list `["arr", "arr"]` — the collector does
not deduplicate. -/
theorem c8_arguments_duplicated_cex :
    collectKernelArgs cex8body = ["arr", "arr"] ∧
    (collectKernelArgs cex8body).count "arr" = 2 := by
  constructor <;> decide

/-- Claim C8 (amended): the argument list holds, in visitation order,
one entry per reference to a variable of pointer type or with global
storage — duplicates included. -/
theorem c8_arguments_amended (body : Body) :
    collectKernelArgs body = (visitedExprs body).filterMap argName := by
  unfold collectKernelArgs
  rw [foldl_argStep]
  simp

/-- Claim C9: the recommended width is 0 exactly when the loop is not
vectorizable, and over all inputs it lies in {0, 4, 8}. -/
theorem c9_width_zero_iff_not_vectorizable (fs : ForStmt) :
    ((analyzeWithOptimizer fs).IsVectorizable = false →
      (analyzeWithOptimizer fs).RecommendedWidth = 0) ∧
    ((analyzeWithOptimizer fs).RecommendedWidth = 0 ∨
     (analyzeWithOptimizer fs).RecommendedWidth = 4 ∨
     (analyzeWithOptimizer fs).RecommendedWidth = 8) ∧
    ((analyzeWithOptimizer fs).RecommendedWidth = 0 ↔
      (analyzeWithOptimizer fs).IsVectorizable = false) := by
  rw [analyzeWithOptimizer_width]
  by_cases hv : (analyzeWithOptimizer fs).IsVectorizable = true
  · by_cases hr : (analyzeWithOptimizer fs).IsReduction = true
    · simp [hv, hr]
    · by_cases ht : ((analyzeWithOptimizer fs).HasConstantTripCount &&
          decide ((analyzeWithOptimizer fs).TripCount ≥ 8)) = true
      · simp [hv, hr, ht]
      · simp [hv, hr, ht]
  · rw [Bool.not_eq_true] at hv
    simp [hv]

theorem c9_width_zero_witness :
    (analyzeWithOptimizer loop9).IsVectorizable = false ∧
    (analyzeWithOptimizer loop9).RecommendedWidth = 0 :=
  ⟨by decide, (c9_width_zero_iff_not_vectorizable loop9).1 (by decide)⟩

/-! ## Type-checker lemmas (claim C6) -/

theorem typeObserve_hasMixed (st : TCState) (e : Expr) :
    (typeObserve st e).hasMixedTypes = st.hasMixedTypes := by
  cases e <;> simp only [typeObserve] <;> (repeat' split) <;> simp

theorem typeObserve_reasons (st : TCState) (e : Expr) :
    (typeObserve st e).reasons = st.reasons := by
  cases e <;> simp only [typeObserve] <;> (repeat' split) <;> simp

theorem insertType_length_le (ts : List QualType) (t : QualType) :
    ts.length ≤ (insertType ts t).length := by
  unfold insertType
  split <;> simp

theorem typeObserve_comp_le (st : TCState) (e : Expr) :
    st.compTypes.length ≤ (typeObserve st e).compTypes.length := by
  cases e <;> simp only [typeObserve]
  case arraySub b idx ty =>
    split
    · simp [insertType_length_le]
    · simp
  case binOp op l r ty =>
    split
    · split
      · split
        · simp
        · simp [insertType_length_le]
      · simp
    · simp
  all_goals simp

/-- The `HasMixedTypes` flag tracks, at every point of the traversal,
whether more than one computation type has been collected. -/
theorem typeStep_hasMixed_inv (st : TCState) (e : Expr)
    (h : st.hasMixedTypes = decide (1 < st.compTypes.length)) :
    (typeStep st e).hasMixedTypes =
      decide (1 < (typeStep st e).compTypes.length) := by
  unfold typeStep
  split
  · next hc => simp [hc]
  · next hc =>
      rw [typeObserve_hasMixed, h]
      have hle := typeObserve_comp_le st e
      simp only [decide_eq_decide]
      omega

theorem foldl_typeStep_hasMixed (l : List Expr) (st : TCState)
    (h : st.hasMixedTypes = decide (1 < st.compTypes.length)) :
    (l.foldl typeStep st).hasMixedTypes =
      decide (1 < (l.foldl typeStep st).compTypes.length) := by
  induction l generalizing st with
  | nil => simpa using h
  | cons e t ih =>
      rw [List.foldl_cons]
      exact ih _ (typeStep_hasMixed_inv st e h)

theorem typeStep_mem_inv (st : TCState) (e : Expr)
    (h : st.hasMixedTypes = true → mixedTypesMsg ∈ st.reasons) :
    (typeStep st e).hasMixedTypes = true →
      mixedTypesMsg ∈ (typeStep st e).reasons := by
  unfold typeStep
  split
  · simp
  · rw [typeObserve_hasMixed, typeObserve_reasons]
    exact h

theorem foldl_typeStep_mem (l : List Expr) (st : TCState)
    (h : st.hasMixedTypes = true → mixedTypesMsg ∈ st.reasons) :
    (l.foldl typeStep st).hasMixedTypes = true →
      mixedTypesMsg ∈ (l.foldl typeStep st).reasons := by
  induction l generalizing st with
  | nil => simpa using h
  | cons e t ih =>
      rw [List.foldl_cons]
      exact ih _ (typeStep_mem_inv st e h)

/-- Claim C6 (counterexample): on `arr[i] = (float) iarr[i];` (with
constant trip count 10) the mixed-types reason is appended three
times, not exactly once — every expression visited after the second
type is observed re-appends it. -/
theorem c6_mixed_reason_count_cex :
    (analyzeWithOptimizer cex6).Reasons.count mixedTypesMsg = 3 ∧
    (analyzeWithOptimizer cex6).IsVectorizable = false := by
  constructor <;> decide

/-- Claim C6 (amended): the type check fails exactly when more than
one distinct computation type has been collected; the mixed-types
reason is then present at least once (it is re-appended at every
later expression visit, so not exactly once); whenever the check
fails the loop is not vectorizable, and if the short-circuited
decision reaches the type check the verdict's reasons contain a
mixed-types entry. -/
theorem c6_type_uniformity_amended (fs : ForStmt) :
    (checkTypesResult fs.body = false ↔
      1 < (runTypeChecker fs.body).compTypes.length) ∧
    (checkTypesResult fs.body = false → mixedTypesMsg ∈ typeReasons fs.body) ∧
    (checkTypesResult fs.body = false →
      (analyzeWithOptimizer fs).IsVectorizable = false) ∧
    (checkTypesResult fs.body = false →
      (((analyzeTripCount fs.cond).1 ||
          (runReductionChecker fs.body).isReduction ||
          isSimpleVectorizablePattern fs.body) &&
        (!bodyHasDependencies fs.body ||
          (runReductionChecker fs.body).isReduction)) = true →
      mixedTypesMsg ∈ (analyzeWithOptimizer fs).Reasons) := by
  have hmix := foldl_typeStep_hasMixed (visitedExprs fs.body) TCState.init
    (by simp [TCState.init])
  have hmem := foldl_typeStep_mem (visitedExprs fs.body) TCState.init
    (by simp [TCState.init])
  have hcr : checkTypesResult fs.body = !(runTypeChecker fs.body).hasMixedTypes := rfl
  refine ⟨?_, ?_, ?_, ?_⟩
  · rw [hcr]
    unfold runTypeChecker
    rw [hmix]
    simp
  · intro h
    rw [hcr] at h
    simp only [Bool.not_eq_false'] at h
    exact hmem h
  · intro h
    have hv : (analyzeWithOptimizer fs).IsVectorizable =
        ((((analyzeTripCount fs.cond).1 ||
            (runReductionChecker fs.body).isReduction ||
            isSimpleVectorizablePattern fs.body) &&
          (!bodyHasDependencies fs.body ||
            (runReductionChecker fs.body).isReduction)) &&
          checkTypesResult fs.body) := rfl
    rw [hv, h]
    simp
  · intro h hreach
    have hR : (analyzeWithOptimizer fs).Reasons =
        dependencyReasons fs.body ++
        (analyzeTripCount fs.cond).2.2 ++
        (if isSimpleVectorizablePattern fs.body
          then ["Simple vectorizable pattern detected"] else []) ++
        (runReductionChecker fs.body).reasons ++
        (if (((analyzeTripCount fs.cond).1 ||
              (runReductionChecker fs.body).isReduction ||
              isSimpleVectorizablePattern fs.body) &&
            (!bodyHasDependencies fs.body ||
              (runReductionChecker fs.body).isReduction))
          then typeReasons fs.body else []) ++
        (if !(analyzeWithOptimizer fs).IsVectorizable &&
            bodyHasDependencies fs.body
          then ["Loop cannot be vectorized due to dependencies"] else []) := rfl
    rw [hR, hreach]
    have hmemR : mixedTypesMsg ∈ typeReasons fs.body := by
      rw [hcr] at h
      simp only [Bool.not_eq_false'] at h
      exact hmem h
    simp [List.mem_append]
    tauto

theorem c6_type_uniformity_amended_witness :
    checkTypesResult cex6.body = false ∧
    mixedTypesMsg ∈ typeReasons cex6.body ∧
    (analyzeWithOptimizer cex6).IsVectorizable = false ∧
    mixedTypesMsg ∈ (analyzeWithOptimizer cex6).Reasons :=
  ⟨by decide,
   (c6_type_uniformity_amended cex6).2.1 (by decide),
   (c6_type_uniformity_amended cex6).2.2.1 (by decide),
   (c6_type_uniformity_amended cex6).2.2.2 (by decide) (by decide)⟩

/-! ## Claims about the elementwise kernel generator -/

/-- The kernel `generateVectorizedLoop` produces when no operation was
extracted: both paths store the loaded value unchanged. -/
def identityElementwiseKernel (width : Nat) : List BasicBlock :=
  [{ name := .entry
     instrs := [.callGlobalId "global_id"]
     term := .condBr (.ultAddK (.reg "global_id") (subOneU32 width) (.arg 2))
               .vector .scalar },
   { name := .vector
     instrs := [.gep "vec_load_ptr" (.arg 0) (.reg "global_id"),
                .loadVector "vec" (.reg "vec_load_ptr") width,
                .gep "vec_store_ptr" (.arg 1) (.reg "global_id"),
                .storeVector (.reg "vec") (.reg "vec_store_ptr")]
     term := .br .exit },
   { name := .scalar
     instrs := [.gep "scalar_load_ptr" (.arg 0) (.reg "global_id"),
                .loadFloat "scalar_val" (.reg "scalar_load_ptr"),
                .gep "scalar_store_ptr" (.arg 1) (.reg "global_id"),
                .storeFloat (.reg "scalar_val") (.reg "scalar_store_ptr")]
     term := .br .exit },
   { name := .exit, instrs := [], term := .retVoid }]

/-- Claim C10: `HasOperation` is set exactly when some assignment's
right-hand side is a binary operator whose right operand is a floating
literal; when nothing matches (e.g. an integer literal constant), the
generated kernel is the identity copy on both paths. -/
theorem c10_operation_extraction (body : Body) (width : Nat) :
    (analyzeOperation body).hasOperation = (visitedExprs body).any floatOpAssign ∧
    ((visitedExprs body).any floatOpAssign = false →
      generateVectorizedLoop width (analyzeOperation body) =
        identityElementwiseKernel width) := by
  have h1 : (analyzeOperation body).hasOperation =
      (visitedExprs body).any floatOpAssign := by
    unfold analyzeOperation
    rw [foldl_opStep]
    simp
  refine ⟨h1, fun h => ?_⟩
  have h2 : emittedOp (analyzeOperation body) = none := by
    unfold emittedOp
    rw [h1, h]
    simp
  simp [generateVectorizedLoop, vectorBlockInstrs, scalarBlockInstrs,
    identityElementwiseKernel, h2]

theorem c10_operation_extraction_witness :
    (visitedExprs cex10body).any floatOpAssign = false ∧
    generateVectorizedLoop 4 (analyzeOperation cex10body) =
      identityElementwiseKernel 4 :=
  ⟨by decide, (c10_operation_extraction cex10body 4).2 (by decide)⟩

/-! ## Elementwise kernel guard (claim C4) -/

theorem scalarBlockInstrs_no_vector (op : Option (ArithOp × Int)) :
    (scalarBlockInstrs op).all (fun i => !i.isVectorAccess) = true := by
  rcases op with _ | ⟨o, c⟩ <;> rfl

theorem scalarBlockInstrs_mem_scalar (op : Option (ArithOp × Int)) :
    (scalarBlockInstrs op).all (fun i => !i.isMemAccess || i.isScalarAccess) = true := by
  rcases op with _ | ⟨o, c⟩ <;> rfl

/-- Claim C4: vector-wide loads and stores appear only in the
`vector` block; the only branch into that block is the conditional
branch on the unsigned comparison `global_id + (width - 1) < N`
(with `N` the trailing size parameter), whose false edge leads to the
`scalar` block; and every memory access in the scalar block is a
single-element access. -/
theorem c4_vector_access_guard (width : Nat) (st : OpState) :
    (∀ b ∈ generateVectorizedLoop width st, ∀ i ∈ b.instrs,
       i.isVectorAccess = true → b.name = .vector) ∧
    (∀ b ∈ generateVectorizedLoop width st, BlockName.vector ∈ b.term.targets →
       b.term = .condBr (.ultAddK (.reg "global_id") (subOneU32 width) (.arg 2))
         .vector .scalar) ∧
    (∀ b ∈ generateVectorizedLoop width st, b.name = .scalar →
       ∀ i ∈ b.instrs, i.isMemAccess = true → i.isScalarAccess = true) := by
  refine ⟨?_, ?_, ?_⟩
  · intro b hb i hi hvec
    simp only [generateVectorizedLoop, List.mem_cons, List.not_mem_nil, or_false] at hb
    rcases hb with rfl | rfl | rfl | rfl
    · simp only [List.mem_singleton] at hi
      subst hi
      simp [Instr.isVectorAccess] at hvec
    · rfl
    · have hall := scalarBlockInstrs_no_vector (emittedOp st)
      rw [List.all_eq_true] at hall
      have h2 := hall i hi
      rw [hvec] at h2
      simp at h2
    · simp at hi
  · intro b hb htgt
    simp only [generateVectorizedLoop, List.mem_cons, List.not_mem_nil, or_false] at hb
    rcases hb with rfl | rfl | rfl | rfl
    · rfl
    · simp [Terminator.targets] at htgt
    · simp [Terminator.targets] at htgt
    · simp [Terminator.targets] at htgt
  · intro b hb hname i hi hmem
    simp only [generateVectorizedLoop, List.mem_cons, List.not_mem_nil, or_false] at hb
    rcases hb with rfl | rfl | rfl | rfl
    · simp at hname
    · simp at hname
    · have hall := scalarBlockInstrs_mem_scalar (emittedOp st)
      rw [List.all_eq_true] at hall
      have h2 := hall i hi
      rw [hmem] at h2
      simpa using h2
    · simp at hname

theorem c4_vector_access_guard_witness :
    ({ name := .scalar
       instrs := scalarBlockInstrs (emittedOp ⟨.none, 0, false⟩)
       term := .br .exit } : BasicBlock) ∈ generateVectorizedLoop 8 ⟨.none, 0, false⟩ ∧
    Instr.loadFloat "scalar_val" (.reg "scalar_load_ptr") ∈
      scalarBlockInstrs (emittedOp ⟨.none, 0, false⟩) ∧
    (Instr.loadFloat "scalar_val" (.reg "scalar_load_ptr")).isScalarAccess = true :=
  ⟨by decide, by decide,
   (c4_vector_access_guard 8 ⟨.none, 0, false⟩).2.2
     { name := .scalar
       instrs := scalarBlockInstrs (emittedOp ⟨.none, 0, false⟩)
       term := .br .exit }
     (by decide) rfl
     (Instr.loadFloat "scalar_val" (.reg "scalar_load_ptr")) (by decide) (by decide)⟩

/-! ## Reduction kernel structure (claim C3) -/

theorem vectorReduceInstrs_filter_atomic (n : Nat) :
    (vectorReduceInstrs n).filter Instr.isAtomic = [] := by
  induction n with
  | zero => rfl
  | succ k ih =>
      simp [vectorReduceInstrs, List.filter_append, ih, List.filter, Instr.isAtomic]

theorem reductionEntryInstrs_filter_atomic (width wg : Nat) :
    (reductionEntryInstrs width wg).filter Instr.isAtomic = [] := by
  simp [reductionEntryInstrs, List.filter_append, vectorReduceInstrs_filter_atomic,
    List.filter, Instr.isAtomic]

theorem reduceBlockInstrs_no_atomic (s : Nat) :
    (reduceBlockInstrs s).all (fun i => !i.isAtomic) = true := rfl

theorem reductionRounds_filter_atomic (wg : Nat) :
    ((reductionRounds wg).flatMap BasicBlock.instrs).filter Instr.isAtomic = [] := by
  unfold reductionRounds
  generalize roundSteps wg = L
  induction L with
  | nil => rfl
  | cons s t ih =>
      simp [List.flatMap_cons, List.filter_append, ih, reduceBlock, contBlock,
        reduceBlockInstrs, List.filter, Instr.isAtomic]

theorem roundTerm_atomic_target (s wg : Nat)
    (h : BlockName.atomic ∈ (roundTerm s wg).targets) :
    roundTerm s wg = .condBr (.eqZero (.reg "local_id")) .atomic .exit := by
  by_cases hlt : s < wg
  · unfold roundTerm at h
    rw [if_pos hlt] at h
    simp [Terminator.targets] at h
  · unfold roundTerm
    rw [if_neg hlt]

/-- The atomic-update block of the reduction kernel. -/
def atomicBlock : BasicBlock :=
  { name := .atomic
    instrs := [.loadFloat "final_sum" (.reg "local_mem"),
               .atomicRMWFAdd (.arg 1) (.reg "final_sum") .seqCst]
    term := .br .exit }

theorem generateReductionKernel_eq (width wg : Nat) :
    generateReductionKernel width wg =
      { name := .entry, instrs := reductionEntryInstrs width wg,
        term := .br .reduceEntry } ::
      { name := .reduceEntry, instrs := [], term := roundTerm 1 wg } ::
      reductionRounds wg ++
      [atomicBlock, { name := .exit, instrs := [], term := .retVoid }] := rfl

theorem mem_generateReductionKernel {width wg : Nat} {b : BasicBlock}
    (hb : b ∈ generateReductionKernel width wg) :
    b = { name := .entry, instrs := reductionEntryInstrs width wg,
          term := .br .reduceEntry } ∨
    b = { name := .reduceEntry, instrs := [], term := roundTerm 1 wg } ∨
    (∃ s ∈ roundSteps wg, b = reduceBlock s ∨ b = contBlock s wg) ∨
    b = atomicBlock ∨
    b = { name := .exit, instrs := [], term := .retVoid } := by
  rw [generateReductionKernel_eq] at hb
  rcases List.mem_cons.1 hb with rfl | hb
  · exact Or.inl rfl
  rcases List.mem_cons.1 hb with rfl | hb
  · exact Or.inr (Or.inl rfl)
  rcases List.mem_append.1 hb with hb | hb
  · refine Or.inr (Or.inr (Or.inl ?_))
    unfold reductionRounds at hb
    rw [List.mem_flatMap] at hb
    obtain ⟨s, hs, hmem⟩ := hb
    simp only [List.mem_cons, List.not_mem_nil, or_false] at hmem
    exact ⟨s, hs, hmem⟩
  rcases List.mem_cons.1 hb with rfl | hb
  · exact Or.inr (Or.inr (Or.inr (Or.inl rfl)))
  rcases List.mem_cons.1 hb with rfl | hb
  · exact Or.inr (Or.inr (Or.inr (Or.inr rfl)))
  exact absurd hb (List.not_mem_nil _)

/-- Claim C3: the reduction kernel contains exactly one atomic
instruction — a sequentially-consistent atomic float add into the
output argument (`arg 1`) — located in the `atomic` block; every
branch into that block is conditional on `local_id == 0` with the
false edge going to `exit`; and every tree-reduction round block
unconditionally branches to its continue block, whose body is exactly
the work-group barrier. -/
theorem c3_reduction_kernel_structure (width wg : Nat) :
    atomicInstrs (generateReductionKernel width wg) =
      [.atomicRMWFAdd (.arg 1) (.reg "final_sum") .seqCst] ∧
    (∀ b ∈ generateReductionKernel width wg, ∀ i ∈ b.instrs,
       i.isAtomic = true → b.name = .atomic) ∧
    (∀ b ∈ generateReductionKernel width wg, BlockName.atomic ∈ b.term.targets →
       b.term = .condBr (.eqZero (.reg "local_id")) .atomic .exit) ∧
    (∀ s ∈ roundSteps wg,
       reduceBlock s ∈ generateReductionKernel width wg ∧
       contBlock s wg ∈ generateReductionKernel width wg) ∧
    (∀ b ∈ generateReductionKernel width wg, ∀ s, b.name = .reduce s →
       b.term = .br (.cont s)) ∧
    (∀ b ∈ generateReductionKernel width wg, ∀ s, b.name = .cont s →
       b.instrs = [.barrier CLK_LOCAL_MEM_FENCE]) := by
  refine ⟨?_, ?_, ?_, ?_, ?_, ?_⟩
  · rw [generateReductionKernel_eq]
    unfold atomicInstrs
    simp only [List.flatMap_cons, List.flatMap_append, List.flatMap_nil,
      List.filter_append]
    rw [reductionEntryInstrs_filter_atomic, reductionRounds_filter_atomic]
    simp [atomicBlock, List.filter, Instr.isAtomic]
  · intro b hb i hi hat
    rcases mem_generateReductionKernel hb with rfl | rfl | ⟨s, _, rfl | rfl⟩ | rfl | rfl
    · have := reductionEntryInstrs_filter_atomic width wg
      rw [List.filter_eq_nil_iff] at this
      exact absurd hat (by simpa using this i hi)
    · simp at hi
    · have hall := reduceBlockInstrs_no_atomic s
      rw [List.all_eq_true] at hall
      have h2 := hall i hi
      rw [hat] at h2
      simp at h2
    · simp only [contBlock, List.mem_singleton] at hi
      subst hi
      simp [Instr.isAtomic] at hat
    · rfl
    · simp at hi
  · intro b hb htgt
    rcases mem_generateReductionKernel hb with rfl | rfl | ⟨s, _, rfl | rfl⟩ | rfl | rfl
    · simp [Terminator.targets] at htgt
    · exact roundTerm_atomic_target 1 wg htgt
    · simp [reduceBlock, Terminator.targets] at htgt
    · exact roundTerm_atomic_target (2 * s) wg htgt
    · simp [atomicBlock, Terminator.targets] at htgt
    · simp [Terminator.targets] at htgt
  · intro s hs
    have hr : reduceBlock s ∈ reductionRounds wg := by
      unfold reductionRounds
      rw [List.mem_flatMap]
      exact ⟨s, hs, by simp⟩
    have hc : contBlock s wg ∈ reductionRounds wg := by
      unfold reductionRounds
      rw [List.mem_flatMap]
      exact ⟨s, hs, by simp⟩
    rw [generateReductionKernel_eq]
    constructor
    · exact List.mem_cons_of_mem _ (List.mem_cons_of_mem _
        (List.mem_append_left _ hr))
    · exact List.mem_cons_of_mem _ (List.mem_cons_of_mem _
        (List.mem_append_left _ hc))
  · intro b hb s hname
    rcases mem_generateReductionKernel hb with rfl | rfl | ⟨s', _, rfl | rfl⟩ | rfl | rfl
    · simp at hname
    · simp at hname
    · simp only [reduceBlock] at hname ⊢
      cases hname
      rfl
    · simp [contBlock] at hname
    · simp [atomicBlock] at hname
    · simp at hname
  · intro b hb s hname
    rcases mem_generateReductionKernel hb with rfl | rfl | ⟨s', _, rfl | rfl⟩ | rfl | rfl
    · simp at hname
    · simp at hname
    · simp [reduceBlock] at hname
    · simp [contBlock]
    · simp [atomicBlock] at hname
    · simp at hname

theorem c3_reduction_kernel_structure_witness :
    atomicInstrs (generateReductionKernel 4 256) =
      [.atomicRMWFAdd (.arg 1) (.reg "final_sum") .seqCst] ∧
    reduceBlock 1 ∈ generateReductionKernel 4 256 ∧
    contBlock 1 256 ∈ generateReductionKernel 4 256 ∧
    (contBlock 1 256).instrs = [.barrier CLK_LOCAL_MEM_FENCE] := by
  have hs : (1 : Nat) ∈ roundSteps 256 := by
    rw [roundSteps, stepsFrom]
    simp
  refine ⟨(c3_reduction_kernel_structure 4 256).1,
    ((c3_reduction_kernel_structure 4 256).2.2.2.1 1 hs).1,
    ((c3_reduction_kernel_structure 4 256).2.2.2.1 1 hs).2,
    (c3_reduction_kernel_structure 4 256).2.2.2.2.2 (contBlock 1 256)
      ((c3_reduction_kernel_structure 4 256).2.2.2.1 1 hs).2 1 rfl⟩

end Cspir
